import Mathlib

/-!
# Request-metrics middleware for gin: model and verified properties

A shallow embedding of `middleware.go` (package `ginprometheus`).

* `counter` and `counter.Write` are the byte-counting sink (source lines 113-122).
* `computeRequestSize` is the measurement goroutine (lines 107-111).
* `handlerFunc` is the closure returned by `Prometheus.handlerFunc` (lines 75-98),
  written as a function on an explicit `World` (gin context, the four instruments
  and a log of the calls the closure makes).

Code that lives outside the package is not translated; it enters as data:

* `net/http`: what `(*http.Request).Write` does for a given request is the field
  `Env.reqWrite` (the slices it hands to the writer, the error it returns and the
  request it leaves behind);
* `time`: the reading `time.Since(start)` is the field `Env.since`;
* the Go scheduler: the moment the measurement goroutine runs, relative to the
  handler chain, is the field `Env.sched`;
* gin: the rest of the handler chain run by `c.Next()` is a list of steps on `Context`;
  where the bytes a handler writes matter, its steps are calls on gin's response writer
  (`ResponseWriter.Write`, `WriteHeader`, `WriteHeaderNow`, after gin's source) and
  steps on the request (`Action`);
* the Prometheus client: a `CounterVec` is a finite table of label tuples with their
  counts, a `Summary` is the stream of its observed samples.
-/

namespace GinPrometheus

/-! ## Machine types -/

/-- One octet of a Go byte slice. -/
abbrev Byte := Fin 256

/-- Go error values; `none` is `nil`. -/
abbrev GoError := String

/-- Largest value of Go `int` on a 64-bit target. -/
def maxInt : Int := 2 ^ 63 - 1

/-- Smallest value of Go `int` on a 64-bit target. -/
def minInt : Int := -(2 ^ 63)

/-- Two-complement wrap-around of Go `int` arithmetic on a 64-bit target. -/
def wrapInt (x : Int) : Int := (x + 2 ^ 63) % 2 ^ 64 - 2 ^ 63

/-! ## The size counter (lines 113-122) -/

/-- The `counter` struct: `size int`. -/
structure counter where
  size : Int
deriving DecidableEq, Repr

/-- Method `(c *counter) Write(p []byte) (n int, err error)`:
`l := len(p); c.size += l; return l, nil`.
The result is the counter afterwards together with `n` and `err`. -/
def counter.Write (c : counter) (p : List Byte) : counter × Int × Option GoError :=
  let l : Int := p.length
  ({ size := wrapInt (c.size + l) }, l, none)

/-- A run of `Write` calls on one counter, in order. -/
def counter.writeAll (c : counter) (ps : List (List Byte)) : counter :=
  ps.foldl (fun acc p => (acc.Write p).1) c

/-- Total number of bytes in a run of slices. -/
def totalLen (ps : List (List Byte)) : Nat :=
  (ps.map List.length).sum


/-! ## float64 arithmetic used by the handler (lines 90, 91, 110) -/

/-- Quotient `n / d` rounded to the nearest integer, ties to the even one. -/
def roundHalfEven (n d : Nat) : Nat :=
  let q := n / d
  let r := n % d
  if 2 * r < d then q
  else if 2 * r = d then (if q % 2 = 0 then q else q + 1)
  else q + 1

/-- Number of bits by which `m` exceeds the 53-bit significand of a float64
(`0` when `m < 2^53`); `fuel` bounds the bits inspected. -/
def excessBits : Nat → Nat → Nat
  | 0, _ => 0
  | fuel + 1, m => if m < 2 ^ 53 then 0 else excessBits fuel (m / 2) + 1

/-- The Go conversion `float64(x)` of an `int` (at most 64 bits, so 11 excess bits):
the nearest float64, ties to even, given by its exact rational value. -/
def float64 (x : Int) : Rat :=
  let m := x.natAbs
  let e := excessBits 11 m
  let v : Nat := roundHalfEven m (2 ^ e) * 2 ^ e
  if x < 0 then -(v : Rat) else (v : Rat)

/-- Floor of the binary logarithm of the positive rational `n / d`. -/
def ilog2 (n d : Nat) : Int :=
  let e0 : Int := (Nat.log2 n : Int) - (Nat.log2 d : Int)
  if (2 : Rat) ^ e0 * d ≤ n then e0 else e0 - 1

/-- Rounding of a rational to the nearest float64 (ties to even, subnormals included);
magnitudes beyond the float64 range do not arise from 64-bit operands. -/
def roundFloat64 (q : Rat) : Rat :=
  if q = 0 then 0 else
  let n := q.num.natAbs
  let d := q.den
  let u : Int := max (ilog2 n d - 52) (-1074)
  let v : Rat :=
    if 0 ≤ u then (roundHalfEven n (d * 2 ^ u.toNat) : Rat) * 2 ^ u.toNat
    else (roundHalfEven (n * 2 ^ (-u).toNat) d : Rat) / 2 ^ (-u).toNat
  if q < 0 then -v else v

/-- Float64 division `a / b` for a non-zero divisor: the exact quotient, rounded. -/
def fdiv (a b : Rat) : Rat := roundFloat64 (a / b)

/-- The constant `time.Microsecond`, a `Duration` in nanoseconds. -/
def Microsecond : Int := 1000

/-! ## `strconv.Itoa` -/

/-- Decimal digits of a natural number, most significant first; `0` is `"0"`. -/
def natDecimal (n : Nat) : List Char :=
  if n = 0 then [Nat.digitChar 0] else (Nat.digits 10 n).reverse.map Nat.digitChar

/-- The library function `strconv.Itoa`: decimal text of an `int`, `-` before negatives. -/
def Itoa (i : Int) : String :=
  if i < 0 then String.mk ('-' :: natDecimal i.natAbs) else String.mk (natDecimal i.natAbs)

/-! ## Requests, responses and the gin context -/

/-- The fields of `url.URL` that an origin-form request target (`/path?query`) sets.
`Path` is the decoded path, `EscapedPath` is what the library method `u.EscapedPath()`
returns for it (the path as the target spells it, `/my%20metrics` for the path
`/my metrics`), `ForceQuery` is set for a target that ends in a bare `?`. -/
structure URL where
  Path : String
  EscapedPath : String
  ForceQuery : Bool
  RawQuery : String
deriving DecidableEq, Repr

/-- The library method `(*url.URL).String` on a URL without scheme, host, opaque part and
fragment whose path starts with `/`: the escaped path, followed by `?` and the raw query
when `ForceQuery` is set or the query is not empty. -/
def URL.String (u : URL) : String :=
  if u.ForceQuery = true ∨ u.RawQuery ≠ "" then u.EscapedPath ++ "?" ++ u.RawQuery
  else u.EscapedPath

/-- The part of `http.Request` the middleware and the handlers touch. `Body` is what is
still unread of the body stream. -/
structure Request where
  Method : String
  URL : URL
  Body : List Byte
deriving DecidableEq, Repr

/-- What one call `r.Write(w)` does when `w` accepts every slice (as `counter.Write`
does): the slices handed to `w.Write` in order, the error returned, and the request
afterwards. -/
structure WriteResult where
  chunks : List (List Byte)
  err : Option GoError
  request : Request
deriving DecidableEq, Repr

/-- State of gin's `ResponseWriter`: what `Status()` and `Size()` report, and the
headers and body sent. -/
structure ResponseWriter where
  Status : Int
  Size : Int
  Header : List (String × String)
  Body : List Byte
deriving DecidableEq, Repr

/-- The part of `gin.Context` the middleware reads: `c.Request`, `c.Writer` and the
result of `c.HandlerName()`. -/
structure Context where
  Request : Request
  Writer : ResponseWriter
  HandlerName : String
deriving DecidableEq, Repr

/-- The handlers that `c.Next()` still has to run, as atomic steps on the context. -/
abbrev HandlersChain := List (Context → Context)

/-- Everything outside the package that one request depends on. -/
structure Env where
  /-- Behaviour of `(*http.Request).Write` against a writer that never fails. -/
  reqWrite : Request → WriteResult
  /-- The reading `time.Since(start)` taken on line 90, in nanoseconds. -/
  since : Int
  /-- Number of steps of the handler chain that are done when the measurement
  goroutine runs (any number from the chain length on: after `c.Next()` returned). -/
  sched : Nat

/-! ## Prometheus instruments -/

/-- A `prometheus.CounterVec`: its label names and one count per label-value tuple. -/
structure CounterVec where
  labelNames : List String
  entries : List (List String × Nat)
deriving DecidableEq, Repr

/-- Increment of the entry for `lvs`, created at zero when absent. -/
def incEntry : List (List String × Nat) → List String → List (List String × Nat)
  | [], lvs => [(lvs, 1)]
  | (k, n) :: es, lvs => if k = lvs then (k, n + 1) :: es else (k, n) :: incEntry es lvs

/-- The call `v.WithLabelValues(lvs...).Inc()`. -/
def CounterVec.Inc (v : CounterVec) (lvs : List String) : CounterVec :=
  { v with entries := incEntry v.entries lvs }

/-- Current count of the entry for `lvs` (zero when it was never incremented). -/
def entryValue : List (List String × Nat) → List String → Nat
  | [], _ => 0
  | (k, n) :: es, lvs => if k = lvs then n else entryValue es lvs

/-- Current count of the entry of `v` for `lvs`. -/
def CounterVec.value (v : CounterVec) (lvs : List String) : Nat :=
  entryValue v.entries lvs

/-- Sum of the counter over all label combinations. -/
def CounterVec.total (v : CounterVec) : Nat :=
  (v.entries.map Prod.snd).sum

/-- A `prometheus.Summary`: the stream of observed samples, oldest first. -/
structure Summary where
  samples : List Rat
deriving DecidableEq, Repr

/-- The call `s.Observe(v)`. -/
def Summary.Observe (s : Summary) (v : Rat) : Summary :=
  { samples := s.samples ++ [v] }

/-- The `Prometheus` struct (lines 14-19); the instrument fields hold the state of the
instruments they point to. -/
structure Prometheus where
  reqCnt : CounterVec
  reqDur : Summary
  reqSz : Summary
  resSz : Summary
  MetricsPath : String
deriving DecidableEq, Repr

/-- The variable `defaultMetricPath`. -/
def defaultMetricPath : String := "/metrics"

/-- Function `registerMetrics` (lines 35-68) against a registry that holds none of the
four metrics yet: each field receives the newly created instrument. The metric names
carry the subsystem, which no operation below reads. -/
def Prometheus.registerMetrics (p : Prometheus) (_subsystem : String) : Prometheus :=
  { p with
    reqCnt := { labelNames := ["code", "method", "handler"], entries := [] }
    reqDur := { samples := [] }
    reqSz := { samples := [] }
    resSz := { samples := [] } }

/-- Function `NewPrometheus` (lines 21-29). -/
def NewPrometheus (subsystem : String) : Prometheus :=
  Prometheus.registerMetrics
    { reqCnt := { labelNames := [], entries := [] }, reqDur := { samples := [] },
      reqSz := { samples := [] }, resSz := { samples := [] },
      MetricsPath := defaultMetricPath } subsystem

/-! ## The measurement goroutine (lines 107-111) -/

/-- The call `r.Write(w)` with a `counter` as writer: every slice goes through
`counter.Write`; the result is the counter, the returned error and the request
afterwards. -/
def Request.Write (r : Request) (env : Env) (w : counter) : counter × Option GoError × Request :=
  let res := env.reqWrite r
  (w.writeAll res.chunks, res.err, res.request)

/-- Function `computeRequestSize`: `c := &counter{}; r.Write(c); out <- float64(c.size)`.
The result of `r.Write` is dropped. Returns the value sent on `out` and the request as
the goroutine leaves it. -/
def computeRequestSize (env : Env) (r : Request) : Rat × Request :=
  let c : counter := { size := 0 }
  let res := r.Write env c
  (float64 res.1.size, res.2.2)

/-! ## The interceptor (lines 75-98) -/

/-- The four instruments. -/
inductive Metric
  | reqCnt
  | reqDur
  | reqSz
  | resSz
deriving DecidableEq, Repr

/-- Calls made by the interceptor, in program order. -/
inductive Event
  /-- The call `c.Next()` has returned. -/
  | next
  /-- The call `Observe(v)` on a summary. -/
  | observe (m : Metric) (v : Rat)
  /-- The call `reqCnt.WithLabelValues(lvs...).Inc()`. -/
  | inc (lvs : List String)
deriving DecidableEq, Repr

/-- Whether an event changes an instrument. -/
def Event.isMutation : Event → Bool
  | Event.next => false
  | Event.observe _ _ => true
  | Event.inc _ => true

/-- The state the interceptor acts on: the middleware with its instruments, the gin
context of the request, and the log of calls made so far. -/
structure World where
  p : Prometheus
  c : Context
  log : List Event

/-- Running handler steps in order. -/
def runSteps (steps : HandlersChain) (c : Context) : Context :=
  steps.foldl (fun acc h => h acc) c

/-- The call `c.Next()` with no goroutine alongside (line 78). -/
def World.Next (w : World) (next : HandlersChain) : World :=
  { w with c := runSteps next w.c, log := w.log ++ [Event.next] }

/-- Lines 84-87: `go computeRequestSize(c.Request, reqSz)` followed by `c.Next()`. The
goroutine works on the request the context holds and runs, in one piece, when
`env.sched` steps of the chain are done: this is every outcome of the race for a body
that one `Read` delivers whole; a longer body can moreover be split between `r.Write` and
the handlers, which no value of `env.sched` describes. Returns the world when `c.Next()`
has returned, and the value the goroutine sends on `reqSz`. -/
def World.NextMeasured (w : World) (env : Env) (next : HandlersChain) : World × Rat :=
  let c1 := runSteps (next.take env.sched) w.c
  let m := computeRequestSize env c1.Request
  let c2 := runSteps (next.drop env.sched) { c1 with Request := m.2 }
  ({ w with c := c2, log := w.log ++ [Event.next] }, m.1)

/-- The call `Observe(v)` on the duration summary. -/
def World.observeReqDur (w : World) (v : Rat) : World :=
  { w with p := { w.p with reqDur := w.p.reqDur.Observe v },
           log := w.log ++ [Event.observe Metric.reqDur v] }

/-- The call `Observe(v)` on the request-size summary. -/
def World.observeReqSz (w : World) (v : Rat) : World :=
  { w with p := { w.p with reqSz := w.p.reqSz.Observe v },
           log := w.log ++ [Event.observe Metric.reqSz v] }

/-- The call `Observe(v)` on the response-size summary. -/
def World.observeResSz (w : World) (v : Rat) : World :=
  { w with p := { w.p with resSz := w.p.resSz.Observe v },
           log := w.log ++ [Event.observe Metric.resSz v] }

/-- The call `p.reqCnt.WithLabelValues(lvs...).Inc()`. -/
def World.incReqCnt (w : World) (lvs : List String) : World :=
  { w with p := { w.p with reqCnt := w.p.reqCnt.Inc lvs },
           log := w.log ++ [Event.inc lvs] }

/-- The label values of line 94, read from the context after `c.Next()`. -/
def labelValues (c : Context) : List String :=
  [Itoa c.Writer.Status, c.Request.Method, c.HandlerName]

/-- The closure returned by `Prometheus.handlerFunc` (lines 76-97), applied to the
context held by `w`. The clock readings of lines 82 and 90 enter as `env.since`; the
receive `<-reqSz` of line 95 yields the value the goroutine sent. -/
def handlerFunc (env : Env) (next : HandlersChain) (w : World) : World :=
  if w.c.Request.URL.String = w.p.MetricsPath then
    w.Next next
  else
    let r := w.NextMeasured env next
    let w1 := r.1
    let status := Itoa w1.c.Writer.Status
    let elapsed := fdiv (float64 env.since) (float64 Microsecond)
    let resSz := float64 w1.c.Writer.Size
    let w2 := w1.observeReqDur elapsed
    let w3 := w2.incReqCnt [status, w2.c.Request.Method, w2.c.HandlerName]
    let w4 := w3.observeReqSz r.2
    w4.observeResSz resSz

/-- One request as it reaches the interceptor. -/
structure Arrival where
  env : Env
  next : HandlersChain
  c : Context

/-- The interceptor serving a sequence of requests one after the other. -/
def serveAll (w : World) (rs : List Arrival) : World :=
  rs.foldl (fun acc a => handlerFunc a.env a.next { acc with c := a.c }) w

/-! ## gin's response writer and what handlers do with it -/

/-- The constant `noWritten` of gin: what `Size()` reports before the response is
started. -/
def noWritten : Int := -1

/-- The gin method `Written()`: `w.size != noWritten`. -/
def ResponseWriter.Written (w : ResponseWriter) : Bool :=
  decide (w.Size ≠ noWritten)

/-- The gin method `WriteHeaderNow()`: `if !w.Written() { w.size = 0; ... }` (the
header goes out with the current status). -/
def ResponseWriter.WriteHeaderNow (w : ResponseWriter) : ResponseWriter :=
  if w.Written = true then w else { w with Size := 0 }

/-- The gin method `Write(data)`:
`w.WriteHeaderNow(); n, err = w.ResponseWriter.Write(data); w.size += n`.
The argument `sent` is the `n` bytes of `data` that the underlying writer reports as
written. -/
def ResponseWriter.Write (w : ResponseWriter) (sent : List Byte) : ResponseWriter :=
  { w.WriteHeaderNow with
    Size := wrapInt (w.WriteHeaderNow.Size + (sent.length : Int))
    Body := w.WriteHeaderNow.Body ++ sent }

/-- The gin method `WriteHeader(code)`: `if code > 0 && w.status != code { w.status = code }`. -/
def ResponseWriter.WriteHeader (w : ResponseWriter) (code : Int) : ResponseWriter :=
  if 0 < code ∧ w.Status ≠ code then { w with Status := code } else w

/-- One atomic step of a handler: a call on the response writer, or anything done with
the request (reading its body included). -/
inductive Action
  /-- The call `c.Writer.Write(data)`, `sent` being the bytes that got through. -/
  | write (sent : List Byte)
  /-- The call `c.Writer.WriteHeader(code)`. -/
  | writeHeader (code : Int)
  /-- The call `c.Writer.WriteHeaderNow()`. -/
  | writeHeaderNow
  /-- A step that touches the request only. -/
  | onRequest (f : Request → Request)

/-- Effect of one handler action on the response writer. -/
def Action.onWriter : Action → ResponseWriter → ResponseWriter
  | Action.write sent, w => w.Write sent
  | Action.writeHeader code, w => w.WriteHeader code
  | Action.writeHeaderNow, w => w.WriteHeaderNow
  | Action.onRequest _, w => w

/-- One handler action as a step on the context. -/
def Action.step : Action → Context → Context
  | Action.onRequest f, c => { c with Request := f c.Request }
  | a, c => { c with Writer := a.onWriter c.Writer }

/-- Number of bytes a run of handler actions writes to the response body. -/
def bytesWritten : List Action → Nat
  | [] => 0
  | Action.write sent :: as => sent.length + bytesWritten as
  | _ :: as => bytesWritten as

/-- Whether a run of handler actions starts the response (a `Write` or a header
flush). -/
def startsResponse : List Action → Bool
  | [] => false
  | Action.write _ :: _ => true
  | Action.writeHeaderNow :: _ => true
  | _ :: as => startsResponse as

/-! ## Concrete requests and environments used in the examples -/

/-- A response body of `2^53 + 1` bytes. -/
def hugeBody : List Byte := List.replicate (2 ^ 53 + 1) 0

/-- A response body of 1024 bytes. -/
def kilobyte : List Byte := List.replicate 1024 0

/-- The context gin hands to the first handler: status 200, nothing written yet
(`Size()` is `-1`). -/
def freshContext (r : Request) (name : String) : Context :=
  { Request := r, Writer := { Status := 200, Size := -1, Header := [], Body := [] },
    HandlerName := name }

/-- The request `GET /hello` with a three-byte body. -/
def helloRequest : Request :=
  { Method := "GET",
    URL := { Path := "/hello", EscapedPath := "/hello", ForceQuery := false, RawQuery := "" },
    Body := [104, 105, 33] }

/-- The request `GET /ping` without body. -/
def pingRequest : Request :=
  { Method := "GET",
    URL := { Path := "/ping", EscapedPath := "/ping", ForceQuery := false, RawQuery := "" },
    Body := [] }

/-- The request `GET /metrics`. -/
def metricsRequest : Request :=
  { Method := "GET",
    URL := { Path := "/metrics", EscapedPath := "/metrics", ForceQuery := false, RawQuery := "" },
    Body := [] }

/-- The request `GET /metrics?x=1`: its path is the default metrics path. -/
def metricsQueryRequest : Request :=
  { Method := "GET",
    URL := { Path := "/metrics", EscapedPath := "/metrics", ForceQuery := false, RawQuery := "x=1" },
    Body := [] }

/-- A handler that reads the whole request body and sends it back with status 200. -/
def echoHandler : Context → Context := fun c =>
  { c with
    Request := { c.Request with Body := [] }
    Writer := { c.Writer with Status := 200, Size := c.Request.Body.length,
                               Body := c.Request.Body } }

/-- A handler that reports `n` bytes written with status 200. -/
def sizedHandler (n : Int) : Context → Context := fun c =>
  { c with Writer := { c.Writer with Status := 200, Size := n } }

/-- An `r.Write` as `net/http` documents it (the header and the body in wire format,
the body read to its end): a 16-byte head followed by the body, flushed to the writer in
one slice, and no error. -/
def wireWrite : Request → WriteResult := fun r =>
  { chunks := [List.replicate 16 0 ++ r.Body], err := none, request := { r with Body := [] } }

/-- An `r.Write` that flushes one full buffer of 4096 bytes to the writer and then fails
reading the rest of the body. -/
def failingWrite : Request → WriteResult := fun r =>
  { chunks := [List.replicate 4096 0], err := some "unexpected EOF",
    request := { r with Body := [] } }

/-- An environment in which the goroutine runs before the first handler. -/
def wireEnv : Env := { reqWrite := wireWrite, since := 1500, sched := 0 }

/-- An environment in which `r.Write` fails after 4096 bytes. -/
def failingEnv : Env := { reqWrite := failingWrite, since := 1500, sched := 0 }

/-- The context of `GET /ping` after an earlier middleware has written five bytes. -/
def startedContext : Context :=
  { freshContext pingRequest "main.ping" with
    Writer := (freshContext pingRequest "main.ping").Writer.Write [1, 2, 3, 4, 5] }

/-- A world with newly registered instruments and an empty log. -/
def freshWorld (c : Context) : World :=
  { p := NewPrometheus "gin", c := c, log := [] }

/-! ## Theorems -/

theorem wrapInt_of_range (x : Int) (hlo : minInt ≤ x) (hhi : x ≤ maxInt) : wrapInt x = x := by
  unfold wrapInt
  unfold minInt at hlo
  unfold maxInt at hhi
  have h : (x + 2 ^ 63) % 2 ^ 64 = x + 2 ^ 63 := by
    apply Int.emod_eq_of_lt <;> omega
  omega

theorem totalLen_nil : totalLen [] = 0 := rfl

theorem totalLen_cons (p : List Byte) (ps : List (List Byte)) :
    totalLen (p :: ps) = p.length + totalLen ps := by
  simp [totalLen]

theorem totalLen_append (ps qs : List (List Byte)) :
    totalLen (ps ++ qs) = totalLen ps + totalLen qs := by
  simp [totalLen]

theorem totalLen_eq_length_join (ps : List (List Byte)) : totalLen ps = ps.flatten.length := by
  induction ps with
  | nil => rfl
  | cons p ps ih => simp [totalLen_cons, ih]

theorem writeAll_size_aux (ps : List (List Byte)) :
    ∀ c : counter, 0 ≤ c.size → c.size + totalLen ps ≤ maxInt →
      (c.writeAll ps).size = c.size + totalLen ps := by
  induction ps with
  | nil => intro c _ _; simp [counter.writeAll, totalLen]
  | cons p ps ih =>
    intro c h0 hfit
    rw [totalLen_cons] at hfit
    push_cast at hfit
    have hstep : (c.Write p).1.size = c.size + p.length := by
      show wrapInt (c.size + (p.length : Int)) = _
      apply wrapInt_of_range
      · unfold minInt; omega
      · omega
    have hrec := ih (c.Write p).1 (by rw [hstep]; omega) (by rw [hstep]; omega)
    show ((c.Write p).1.writeAll ps).size = _
    rw [hrec, hstep, totalLen_cons]
    push_cast
    ring

theorem writeAll_fresh_size (ps : List (List Byte)) (hfit : (totalLen ps : Int) ≤ maxInt) :
    (counter.writeAll { size := 0 } ps).size = totalLen ps := by
  have h := writeAll_size_aux ps { size := 0 } (by simp) (by simpa using hfit)
  simpa using h

/-- C1: for every counter state and every byte slice (the empty one included),
`counter.Write` returns `n = len(p)` and a nil error. -/
theorem counter_Write_never_fails (c : counter) (p : List Byte) :
    (c.Write p).2.1 = (p.length : Int) ∧ (c.Write p).2.2 = none ∧
      (c.Write []).2.1 = 0 ∧ (c.Write []).2.2 = none := by
  refine ⟨rfl, rfl, rfl, rfl⟩

/-- C2: writing the slices `ps` in order to a fresh counter leaves `size` equal to the
sum of their lengths whenever that sum fits the `int` range; every single `Write` of the
run adds exactly `len(p)`; and any other split `qs` of the same bytes gives the same size. -/
theorem counter_size_cumulative (ps qs : List (List Byte))
    (hfit : (totalLen ps : Int) ≤ maxInt) (hsplit : qs.flatten = ps.flatten) :
    (counter.writeAll { size := 0 } ps).size = totalLen ps ∧
    (∀ (s t : List (List Byte)) (p : List Byte), ps = s ++ p :: t →
      ((counter.writeAll { size := 0 } s).Write p).1.size
        = (counter.writeAll { size := 0 } s).size + p.length) ∧
    (counter.writeAll { size := 0 } qs).size = (counter.writeAll { size := 0 } ps).size := by
  refine ⟨writeAll_fresh_size ps hfit, ?_, ?_⟩
  · intro s t p hps
    have hlen : totalLen ps = totalLen s + (p.length + totalLen t) := by
      rw [hps, totalLen_append, totalLen_cons]
    have hs : (totalLen s : Int) ≤ maxInt := by
      have : (totalLen s : Int) ≤ totalLen ps := by exact_mod_cast (by omega : totalLen s ≤ totalLen ps)
      omega
    show wrapInt ((counter.writeAll { size := 0 } s).size + (p.length : Int)) = _
    rw [writeAll_fresh_size s hs]
    apply wrapInt_of_range
    · unfold minInt; omega
    · have : ((totalLen s + p.length : Nat) : Int) ≤ totalLen ps := by
        exact_mod_cast (by omega : totalLen s + p.length ≤ totalLen ps)
      push_cast at this
      omega
  · have hq : totalLen qs = totalLen ps := by
      rw [totalLen_eq_length_join, totalLen_eq_length_join, hsplit]
    rw [writeAll_fresh_size ps hfit, writeAll_fresh_size qs (by rw [hq]; exact hfit), hq]

/-- Witness for C2: three bytes written as `[1,2] , [3]` and as `[1] , [2,3]`. -/
theorem counter_size_cumulative_witness :
    (totalLen [[1, 2], [3]] : Int) ≤ maxInt ∧
    ([[1], [2, 3]] : List (List Byte)).flatten = [[1, 2], [3]].flatten ∧
    (counter.writeAll { size := 0 } [[1, 2], [3]]).size = totalLen [[1, 2], [3]] ∧
    (∀ (s t : List (List Byte)) (p : List Byte), [[1, 2], [3]] = s ++ p :: t →
      ((counter.writeAll { size := 0 } s).Write p).1.size
        = (counter.writeAll { size := 0 } s).size + p.length) ∧
    (counter.writeAll { size := 0 } [[1], [2, 3]]).size
      = (counter.writeAll { size := 0 } [[1, 2], [3]]).size :=
  ⟨by decide, by decide,
    counter_size_cumulative [[1, 2], [3]] [[1], [2, 3]] (by decide) (by decide)⟩

theorem handlerFunc_excluded (env : Env) (next : HandlersChain) (w : World)
    (h : w.c.Request.URL.String = w.p.MetricsPath) :
    handlerFunc env next w = w.Next next := by
  unfold handlerFunc
  rw [if_pos h]

theorem handlerFunc_measured (env : Env) (next : HandlersChain) (w : World)
    (h : w.c.Request.URL.String ≠ w.p.MetricsPath) :
    handlerFunc env next w =
      ((((w.NextMeasured env next).1.observeReqDur
            (fdiv (float64 env.since) (float64 Microsecond))).incReqCnt
          (labelValues (w.NextMeasured env next).1.c)).observeReqSz
        (w.NextMeasured env next).2).observeResSz
          (float64 (w.NextMeasured env next).1.c.Writer.Size) := by
  unfold handlerFunc
  rw [if_neg h]
  rfl

theorem handlerFunc_measured_c (env : Env) (next : HandlersChain) (w : World)
    (h : w.c.Request.URL.String ≠ w.p.MetricsPath) :
    (handlerFunc env next w).c = (w.NextMeasured env next).1.c := by
  rw [handlerFunc_measured env next w h]
  rfl

theorem handlerFunc_measured_p (env : Env) (next : HandlersChain) (w : World)
    (h : w.c.Request.URL.String ≠ w.p.MetricsPath) :
    (handlerFunc env next w).p =
      { reqCnt := w.p.reqCnt.Inc (labelValues (handlerFunc env next w).c)
        reqDur := w.p.reqDur.Observe (fdiv (float64 env.since) (float64 Microsecond))
        reqSz := w.p.reqSz.Observe (w.NextMeasured env next).2
        resSz := w.p.resSz.Observe (float64 (handlerFunc env next w).c.Writer.Size)
        MetricsPath := w.p.MetricsPath } := by
  rw [handlerFunc_measured_c env next w h, handlerFunc_measured env next w h]
  rfl

theorem handlerFunc_measured_log (env : Env) (next : HandlersChain) (w : World)
    (h : w.c.Request.URL.String ≠ w.p.MetricsPath) :
    (handlerFunc env next w).log =
      w.log ++ [Event.next,
        Event.observe Metric.reqDur (fdiv (float64 env.since) (float64 Microsecond)),
        Event.inc (labelValues (handlerFunc env next w).c),
        Event.observe Metric.reqSz (w.NextMeasured env next).2,
        Event.observe Metric.resSz (float64 (handlerFunc env next w).c.Writer.Size)] := by
  rw [handlerFunc_measured_c env next w h, handlerFunc_measured env next w h]
  simp [World.observeResSz, World.observeReqSz, World.incReqCnt, World.observeReqDur,
    World.NextMeasured]

theorem entryValue_incEntry (es : List (List String × Nat)) (lvs k : List String) :
    entryValue (incEntry es lvs) k = entryValue es k + (if k = lvs then 1 else 0) := by
  induction es with
  | nil =>
    by_cases hk : k = lvs
    · simp [incEntry, entryValue, hk]
    · have hk2 : ¬ lvs = k := fun e => hk e.symm
      simp [incEntry, entryValue, hk, hk2]
  | cons e es ih =>
    obtain ⟨k0, n⟩ := e
    by_cases h0 : k0 = lvs
    · by_cases hk : k0 = k
      · have : k = lvs := hk ▸ h0
        simp [incEntry, entryValue, h0, hk, this]
      · have hk2 : ¬ k = lvs := fun e => hk (h0.trans e.symm)
        have hk3 : ¬ lvs = k := fun e => hk2 e.symm
        simp [incEntry, entryValue, h0, hk2, hk3]
    · by_cases hk : k0 = k
      · have hk2 : ¬ k = lvs := fun e => h0 (hk.trans e)
        simp [incEntry, entryValue, h0, hk, hk2]
      · simp [incEntry, entryValue, h0, hk, ih]

theorem sum_snd_incEntry (es : List (List String × Nat)) (lvs : List String) :
    ((incEntry es lvs).map Prod.snd).sum = (es.map Prod.snd).sum + 1 := by
  induction es with
  | nil => simp [incEntry]
  | cons e es ih =>
    obtain ⟨k0, n⟩ := e
    by_cases h0 : k0 = lvs
    · simp [incEntry, h0]; omega
    · simp [incEntry, h0, ih]; omega

theorem CounterVec.value_Inc (v : CounterVec) (lvs k : List String) :
    (v.Inc lvs).value k = v.value k + (if k = lvs then 1 else 0) :=
  entryValue_incEntry v.entries lvs k

theorem CounterVec.total_Inc (v : CounterVec) (lvs : List String) :
    (v.Inc lvs).total = v.total + 1 :=
  sum_snd_incEntry v.entries lvs

theorem handlerFunc_excluded_records_nothing (env : Env) (next : HandlersChain) (w : World)
    (h : w.c.Request.URL.String = w.p.MetricsPath) :
    (handlerFunc env next w).p = w.p ∧
    (handlerFunc env next w).c = runSteps next w.c ∧
    (handlerFunc env next w).log = w.log ++ [Event.next] := by
  rw [handlerFunc_excluded env next w h]
  exact ⟨rfl, rfl, rfl⟩

theorem handlerFunc_MetricsPath (env : Env) (next : HandlersChain) (w : World) :
    (handlerFunc env next w).p.MetricsPath = w.p.MetricsPath := by
  by_cases h : w.c.Request.URL.String = w.p.MetricsPath
  · rw [(handlerFunc_excluded_records_nothing env next w h).1]
  · rw [handlerFunc_measured_p env next w h]

theorem handlerFunc_total (env : Env) (next : HandlersChain) (w : World) :
    (handlerFunc env next w).p.reqCnt.total =
      w.p.reqCnt.total + (if w.c.Request.URL.String = w.p.MetricsPath then 0 else 1) := by
  by_cases h : w.c.Request.URL.String = w.p.MetricsPath
  · rw [(handlerFunc_excluded_records_nothing env next w h).1, if_pos h]
    rfl
  · rw [handlerFunc_measured_p env next w h, if_neg h]
    exact CounterVec.total_Inc _ _

theorem serveAll_cons (w : World) (a : Arrival) (rs : List Arrival) :
    serveAll w (a :: rs) = serveAll (handlerFunc a.env a.next { w with c := a.c }) rs := rfl

theorem serveAll_MetricsPath (rs : List Arrival) :
    ∀ w : World, (serveAll w rs).p.MetricsPath = w.p.MetricsPath := by
  induction rs with
  | nil => intro w; rfl
  | cons a rs ih =>
    intro w
    rw [serveAll_cons, ih, handlerFunc_MetricsPath]

theorem serveAll_total (rs : List Arrival) :
    ∀ w : World, (serveAll w rs).p.reqCnt.total =
      w.p.reqCnt.total +
        (rs.filter (fun a => decide (a.c.Request.URL.String ≠ w.p.MetricsPath))).length := by
  induction rs with
  | nil => intro w; rfl
  | cons a rs ih =>
    intro w
    rw [serveAll_cons, ih, handlerFunc_MetricsPath, handlerFunc_total]
    by_cases h : a.c.Request.URL.String = w.p.MetricsPath
    · simp [h]
    · simp [h]; omega

/-- C4: a request that the metrics-path check does not exclude causes exactly four
instrument mutations: the `requests_total` entry for the label values of line 94 grows by
one and no other entry changes (so the total grows by one), each of the three summaries
receives exactly one more sample, and nothing else of the middleware changes. -/
theorem handlerFunc_four_mutations (env : Env) (next : HandlersChain) (w : World)
    (hne : w.c.Request.URL.String ≠ w.p.MetricsPath) :
    (∀ k, (handlerFunc env next w).p.reqCnt.value k =
        w.p.reqCnt.value k + (if k = labelValues (handlerFunc env next w).c then 1 else 0)) ∧
    (handlerFunc env next w).p.reqCnt.total = w.p.reqCnt.total + 1 ∧
    (handlerFunc env next w).p.reqCnt.labelNames = w.p.reqCnt.labelNames ∧
    (∃ v, (handlerFunc env next w).p.reqDur.samples = w.p.reqDur.samples ++ [v]) ∧
    (∃ v, (handlerFunc env next w).p.reqSz.samples = w.p.reqSz.samples ++ [v]) ∧
    (∃ v, (handlerFunc env next w).p.resSz.samples = w.p.resSz.samples ++ [v]) ∧
    (handlerFunc env next w).p.MetricsPath = w.p.MetricsPath ∧
    (((handlerFunc env next w).log.drop w.log.length).filter Event.isMutation).length = 4 := by
  have hp := handlerFunc_measured_p env next w hne
  have hl := handlerFunc_measured_log env next w hne
  refine ⟨?_, ?_, ?_, ?_, ?_, ?_, ?_, ?_⟩
  · intro k
    rw [hp]
    exact CounterVec.value_Inc _ _ _
  · rw [hp]
    exact CounterVec.total_Inc _ _
  · rw [hp]
    rfl
  · exact ⟨_, by rw [hp]; rfl⟩
  · exact ⟨_, by rw [hp]; rfl⟩
  · exact ⟨_, by rw [hp]; rfl⟩
  · rw [hp]
  · rw [hl]
    simp [Event.isMutation]

/-- Witness for C4: `GET /hello` served by the echo handler on new instruments. -/
theorem handlerFunc_four_mutations_witness :
    (freshWorld (freshContext helloRequest "main.echo")).c.Request.URL.String ≠
      (freshWorld (freshContext helloRequest "main.echo")).p.MetricsPath ∧
    (handlerFunc wireEnv [echoHandler]
      (freshWorld (freshContext helloRequest "main.echo"))).p.reqCnt.total =
        (freshWorld (freshContext helloRequest "main.echo")).p.reqCnt.total + 1 :=
  ⟨by decide,
    (handlerFunc_four_mutations wireEnv [echoHandler]
      (freshWorld (freshContext helloRequest "main.echo")) (by decide)).2.1⟩

/-- C3, at the request `GET /metrics?x=1` with the default configuration: the path of
the request is the metrics path, yet the interceptor records it (the counter total goes
from 0 to 1 and the log shows four instrument mutations). -/
theorem metrics_path_with_query_is_recorded :
    metricsQueryRequest.URL.Path = (NewPrometheus "gin").MetricsPath ∧
    (freshWorld (freshContext metricsQueryRequest "prometheusHandler")).p.reqCnt.total = 0 ∧
    (handlerFunc wireEnv [sizedHandler 512]
      (freshWorld (freshContext metricsQueryRequest "prometheusHandler"))).p.reqCnt.total = 1 ∧
    ((handlerFunc wireEnv [sizedHandler 512]
      (freshWorld (freshContext metricsQueryRequest "prometheusHandler"))).log.filter
        Event.isMutation).length = 4 := by
  refine ⟨by decide, by decide, by decide, ?_⟩
  rw [handlerFunc_measured_log _ _ _ (by decide)]
  simp [Event.isMutation, freshWorld]

/-- C5, at two requests `GET /metrics?x=1` served on new instruments: none of them goes
to a path other than the metrics path, yet `requests_total` sums to 2. -/
theorem metrics_path_with_query_is_counted :
    (∀ a ∈ [Arrival.mk wireEnv [sizedHandler 512]
              (freshContext metricsQueryRequest "prometheusHandler"),
            Arrival.mk wireEnv [sizedHandler 512]
              (freshContext metricsQueryRequest "prometheusHandler")],
      a.c.Request.URL.Path = (NewPrometheus "gin").MetricsPath) ∧
    (serveAll (freshWorld (freshContext pingRequest ""))
      [Arrival.mk wireEnv [sizedHandler 512]
         (freshContext metricsQueryRequest "prometheusHandler"),
       Arrival.mk wireEnv [sizedHandler 512]
         (freshContext metricsQueryRequest "prometheusHandler")]).p.reqCnt.total = 2 := by
  refine ⟨by decide, ?_⟩
  rw [serveAll_total]
  decide

theorem excessBits_of_lt (fuel m : Nat) (h : m < 2 ^ 53) : excessBits fuel m = 0 := by
  cases fuel with
  | zero => rfl
  | succ f =>
    show (if m < 2 ^ 53 then 0 else excessBits f (m / 2) + 1) = 0
    rw [if_pos h]

theorem roundHalfEven_one (n : Nat) : roundHalfEven n 1 = n := by
  simp [roundHalfEven, Nat.mod_one]

theorem float64_exact (x : Int) (h : x.natAbs ≤ 2 ^ 53) : float64 x = (x : Rat) := by
  have hv : roundHalfEven x.natAbs (2 ^ excessBits 11 x.natAbs) * 2 ^ excessBits 11 x.natAbs
      = x.natAbs := by
    rcases Nat.lt_or_eq_of_le h with hlt | heq
    · rw [excessBits_of_lt 11 _ hlt]
      simp [roundHalfEven_one]
    · rw [heq]
      decide
  unfold float64
  simp only [hv]
  by_cases hx : x < 0
  · rw [if_pos hx]
    have hc : ((x.natAbs : Nat) : Rat) = ((|x| : Int) : Rat) := Nat.cast_natAbs x
    rw [hc, abs_of_neg hx]
    push_cast
    ring
  · rw [if_neg hx]
    have hc : ((x.natAbs : Nat) : Rat) = ((|x| : Int) : Rat) := Nat.cast_natAbs x
    rw [hc, abs_of_nonneg (not_lt.mp hx)]

theorem digitChar_inj (a b : Nat) (ha : a < 10) (hb : b < 10)
    (h : Nat.digitChar a = Nat.digitChar b) : a = b := by
  interval_cases a <;> interval_cases b <;> first | rfl | (exact absurd h (by decide))

theorem digitChar_ne_minus (a : Nat) (ha : a < 10) : Nat.digitChar a ≠ '-' := by
  interval_cases a <;> decide

theorem map_digitChar_inj : ∀ (l1 l2 : List Nat), (∀ d ∈ l1, d < 10) → (∀ d ∈ l2, d < 10) →
    l1.map Nat.digitChar = l2.map Nat.digitChar → l1 = l2
  | [], [], _, _, _ => rfl
  | [], _ :: _, _, _, h => by simp at h
  | _ :: _, [], _, _, h => by simp at h
  | a :: l1, b :: l2, h1, h2, h => by
    simp only [List.map_cons, List.cons.injEq] at h
    have hab := digitChar_inj a b (h1 a (by simp)) (h2 b (by simp)) h.1
    have ht := map_digitChar_inj l1 l2 (fun d hd => h1 d (by simp [hd]))
      (fun d hd => h2 d (by simp [hd])) h.2
    rw [hab, ht]

theorem digits_ne_singleton_zero (n : Nat) (hn : n ≠ 0) : Nat.digits 10 n ≠ [0] := by
  intro h
  have := Nat.getLast_digit_ne_zero 10 hn
  simp [h] at this

theorem natDecimal_inj (n m : Nat) (h : natDecimal n = natDecimal m) : n = m := by
  have hlt : ∀ k : Nat, ∀ d ∈ (Nat.digits 10 k).reverse, d < 10 := by
    intro k d hd
    exact Nat.digits_lt_base (by norm_num) (List.mem_reverse.mp hd)
  unfold natDecimal at h
  by_cases hn : n = 0
  · by_cases hm : m = 0
    · rw [hn, hm]
    · rw [if_pos hn, if_neg hm] at h
      have h2 := map_digitChar_inj [0] (Nat.digits 10 m).reverse (by simp) (hlt m) h
      have h3 : Nat.digits 10 m = [0] := by
        have := congrArg List.reverse h2
        simpa using this.symm
      exact absurd h3 (digits_ne_singleton_zero m hm)
  · by_cases hm : m = 0
    · rw [if_neg hn, if_pos hm] at h
      have h2 := map_digitChar_inj (Nat.digits 10 n).reverse [0] (hlt n) (by simp) h
      have h3 : Nat.digits 10 n = [0] := by
        have := congrArg List.reverse h2
        simpa using this
      exact absurd h3 (digits_ne_singleton_zero n hn)
    · rw [if_neg hn, if_neg hm] at h
      have h2 := map_digitChar_inj _ _ (hlt n) (hlt m) h
      have h3 : Nat.digits 10 n = Nat.digits 10 m := by
        have := congrArg List.reverse h2
        simpa using this
      exact Nat.digits_inj_iff.mp h3

theorem minus_not_mem_natDecimal (n : Nat) : '-' ∉ natDecimal n := by
  unfold natDecimal
  by_cases hn : n = 0
  · rw [if_pos hn]
    decide
  · rw [if_neg hn]
    intro hmem
    obtain ⟨d, hd, hc⟩ := List.mem_map.mp hmem
    have hlt : d < 10 := Nat.digits_lt_base (by norm_num) (List.mem_reverse.mp hd)
    exact digitChar_ne_minus d hlt hc

theorem Itoa_inj (i j : Int) (h : Itoa i = Itoa j) : i = j := by
  unfold Itoa at h
  by_cases hi : i < 0
  · by_cases hj : j < 0
    · rw [if_pos hi, if_pos hj] at h
      have h := congrArg String.data h
      simp only [List.cons.injEq, true_and] at h
      have := natDecimal_inj _ _ h
      omega
    · rw [if_pos hi, if_neg hj] at h
      have h := congrArg String.data h
      simp only at h
      have hmem : '-' ∈ natDecimal j.natAbs := by rw [← h]; simp
      exact absurd hmem (minus_not_mem_natDecimal _)
  · by_cases hj : j < 0
    · rw [if_neg hi, if_pos hj] at h
      have h := congrArg String.data h
      simp only at h
      have hmem : '-' ∈ natDecimal i.natAbs := by rw [h]; simp
      exact absurd hmem (minus_not_mem_natDecimal _)
    · rw [if_neg hi, if_neg hj] at h
      have h := congrArg String.data h
      simp only at h
      have := natDecimal_inj _ _ h
      omega

theorem runSteps_append (s t : HandlersChain) (c : Context) :
    runSteps (s ++ t) c = runSteps t (runSteps s c) := by
  simp [runSteps, List.foldl_append]

theorem NextMeasured_c (env : Env) (next : HandlersChain) (w : World) :
    (w.NextMeasured env next).1.c =
      runSteps (next.drop env.sched)
        { runSteps (next.take env.sched) w.c with
          Request := (env.reqWrite (runSteps (next.take env.sched) w.c).Request).request } :=
  rfl

theorem NextMeasured_value (env : Env) (next : HandlersChain) (w : World) :
    (w.NextMeasured env next).2 =
      float64 (counter.writeAll { size := 0 }
        (env.reqWrite (runSteps (next.take env.sched) w.c).Request).chunks).size :=
  rfl

theorem float64_natCast (n : Nat) (h : n ≤ 2 ^ 53) : float64 (n : Int) = (n : Rat) := by
  rw [float64_exact _ (by simpa using h)]
  simp

theorem labelValues_eq_iff (c1 c2 : Context) :
    labelValues c1 = labelValues c2 ↔
      c1.Writer.Status = c2.Writer.Status ∧ c1.Request.Method = c2.Request.Method ∧
        c1.HandlerName = c2.HandlerName := by
  unfold labelValues
  constructor
  · intro h
    simp only [List.cons.injEq, and_true] at h
    exact ⟨Itoa_inj _ _ h.1, h.2.1, h.2.2⟩
  · rintro ⟨h1, h2, h3⟩
    rw [h1, h2, h3]

/-- C6 as amended: when `r.Write` returns an error, the sample observed into
`request_size_bytes` is the number of bytes it had handed to the counter before failing
(hence 0 only when it had written nothing), and the error reaches neither the handler
chain nor the caller: the interceptor ends in the very world it would end in had
`r.Write` returned nil after the same writes. -/
theorem request_size_on_write_error (env : Env) (next : HandlersChain) (w : World)
    (hne : w.c.Request.URL.String ≠ w.p.MetricsPath)
    (_herr : (env.reqWrite (runSteps (next.take env.sched) w.c).Request).err ≠ none)
    (hfit : totalLen (env.reqWrite (runSteps (next.take env.sched) w.c).Request).chunks
      ≤ 2 ^ 53) :
    (handlerFunc env next w).p.reqSz.samples = w.p.reqSz.samples ++
      [(totalLen (env.reqWrite (runSteps (next.take env.sched) w.c).Request).chunks : Rat)] ∧
    handlerFunc env next w =
      handlerFunc { env with reqWrite := fun r => { env.reqWrite r with err := none } }
        next w := by
  constructor
  · rw [handlerFunc_measured_p env next w hne, NextMeasured_value]
    have hmax : ((totalLen (env.reqWrite
        (runSteps (next.take env.sched) w.c).Request).chunks : Nat) : Int) ≤ maxInt := by
      have : ((totalLen (env.reqWrite
          (runSteps (next.take env.sched) w.c).Request).chunks : Nat) : Int) ≤ 2 ^ 53 := by
        exact_mod_cast hfit
      unfold maxInt
      omega
    rw [writeAll_fresh_size _ hmax, float64_natCast _ hfit]
    rfl
  · rfl

/-- Witness for C6 as amended: an `r.Write` that fails after 4096 bytes. -/
theorem request_size_on_write_error_witness :
    (failingEnv.reqWrite (runSteps ([echoHandler].take failingEnv.sched)
      (freshWorld (freshContext helloRequest "main.echo")).c).Request).err ≠ none ∧
    (handlerFunc failingEnv [echoHandler]
      (freshWorld (freshContext helloRequest "main.echo"))).p.reqSz.samples =
    (freshWorld (freshContext helloRequest "main.echo")).p.reqSz.samples ++
      [(totalLen (failingEnv.reqWrite (runSteps ([echoHandler].take failingEnv.sched)
        (freshWorld (freshContext helloRequest "main.echo")).c).Request).chunks : Rat)] :=
  ⟨by decide,
   (request_size_on_write_error failingEnv [echoHandler]
      (freshWorld (freshContext helloRequest "main.echo")) (by decide) (by decide)
      (by
        show totalLen [List.replicate 4096 (0 : Byte)] ≤ 2 ^ 53
        rw [totalLen, List.map_cons, List.length_replicate]
        decide)).1⟩

/-- C6 as stated fails: `r.Write` returns an error after handing 4096 bytes to the
counter, and the sample observed into `request_size_bytes` is 4096, not 0. -/
theorem request_size_on_write_error_not_zero :
    (failingEnv.reqWrite helloRequest).err ≠ none ∧
    (handlerFunc failingEnv [echoHandler]
      (freshWorld (freshContext helloRequest "main.echo"))).p.reqSz.samples = [4096] ∧
    ([4096] : List Rat) ≠ [0] := by
  refine ⟨by decide, ?_, by norm_num⟩
  rw [handlerFunc_measured_p _ _ _ (by decide), NextMeasured_value]
  have hchunks : (failingEnv.reqWrite (runSteps ([echoHandler].take failingEnv.sched)
      (freshWorld (freshContext helloRequest "main.echo")).c).Request).chunks =
      [List.replicate 4096 (0 : Byte)] := rfl
  have hlen : totalLen [List.replicate 4096 (0 : Byte)] = 4096 := by
    rw [totalLen, List.map_cons, List.length_replicate]
    rfl
  rw [hchunks, writeAll_fresh_size _ (by rw [hlen]; decide), hlen,
    float64_natCast 4096 (by decide)]
  simp [Summary.Observe, freshWorld, NewPrometheus, Prometheus.registerMetrics]

theorem handlerFunc_context_of_untouched_request (env : Env) (next : HandlersChain)
    (w : World) (hne : w.c.Request.URL.String ≠ w.p.MetricsPath)
    (hkeep : (env.reqWrite (runSteps (next.take env.sched) w.c).Request).request =
      (runSteps (next.take env.sched) w.c).Request) :
    (handlerFunc env next w).c = runSteps next w.c := by
  rw [handlerFunc_measured_c env next w hne, NextMeasured_c, hkeep]
  conv_rhs => rw [← List.take_append_drop env.sched next]
  rw [runSteps_append]

/-- C7, at the request `GET /hello` with the three-byte body `hi!` served by a handler
that echoes the body: the request is not excluded, the goroutine of line 85 runs
`r.Write` before the handler does, `r.Write` reads the body to its end, and the handler
then finds the body empty. It sends back nothing, where without the interceptor it reads
and sends back the three bytes. -/
theorem interceptor_consumes_request_body :
    (freshWorld (freshContext helloRequest "main.echo")).c.Request.URL.String ≠
      (freshWorld (freshContext helloRequest "main.echo")).p.MetricsPath ∧
    (runSteps [echoHandler] (freshContext helloRequest "main.echo")).Writer.Body
      = [104, 105, 33] ∧
    (handlerFunc wireEnv [echoHandler]
      (freshWorld (freshContext helloRequest "main.echo"))).c.Writer.Body = [] ∧
    (handlerFunc wireEnv [echoHandler]
      (freshWorld (freshContext helloRequest "main.echo"))).c.Writer.Size = 0 := by
  refine ⟨by decide, by decide, by decide, by decide⟩

/-- C8: for a request that is not excluded, the counter entry incremented is the one for
the label values (decimal text of the status read after `c.Next()`, request method,
handler name), matching the label names `code`, `method`, `handler` in this order; no
other entry changes; and two requests hit the same entry exactly when they agree on
status, method and handler name. -/
theorem counter_entry_key (env : Env) (next : HandlersChain) (w : World) (c2 : Context)
    (subsystem : String)
    (hne : w.c.Request.URL.String ≠ w.p.MetricsPath) :
    (handlerFunc env next w).p.reqCnt =
      w.p.reqCnt.Inc [Itoa (w.NextMeasured env next).1.c.Writer.Status,
                      (w.NextMeasured env next).1.c.Request.Method,
                      (w.NextMeasured env next).1.c.HandlerName] ∧
    (∀ k, (handlerFunc env next w).p.reqCnt.value k = w.p.reqCnt.value k +
      (if k = [Itoa (w.NextMeasured env next).1.c.Writer.Status,
               (w.NextMeasured env next).1.c.Request.Method,
               (w.NextMeasured env next).1.c.HandlerName] then 1 else 0)) ∧
    (NewPrometheus subsystem).reqCnt.labelNames.zip
        (labelValues (w.NextMeasured env next).1.c) =
      [("code", Itoa (w.NextMeasured env next).1.c.Writer.Status),
       ("method", (w.NextMeasured env next).1.c.Request.Method),
       ("handler", (w.NextMeasured env next).1.c.HandlerName)] ∧
    (labelValues (w.NextMeasured env next).1.c = labelValues c2 ↔
      (w.NextMeasured env next).1.c.Writer.Status = c2.Writer.Status ∧
      (w.NextMeasured env next).1.c.Request.Method = c2.Request.Method ∧
      (w.NextMeasured env next).1.c.HandlerName = c2.HandlerName) := by
  have hp := handlerFunc_measured_p env next w hne
  rw [handlerFunc_measured_c env next w hne] at hp
  refine ⟨?_, ?_, rfl, labelValues_eq_iff _ _⟩
  · rw [hp]
    rfl
  · intro k
    rw [hp]
    exact CounterVec.value_Inc _ _ _

/-- Witness for C8: `GET /hello` served by the echo handler. -/
theorem counter_entry_key_witness :
    (freshWorld (freshContext helloRequest "main.echo")).c.Request.URL.String ≠
      (freshWorld (freshContext helloRequest "main.echo")).p.MetricsPath ∧
    (handlerFunc wireEnv [echoHandler]
      (freshWorld (freshContext helloRequest "main.echo"))).p.reqCnt =
      (freshWorld (freshContext helloRequest "main.echo")).p.reqCnt.Inc
        [Itoa ((freshWorld (freshContext helloRequest "main.echo")).NextMeasured
            wireEnv [echoHandler]).1.c.Writer.Status,
         ((freshWorld (freshContext helloRequest "main.echo")).NextMeasured
            wireEnv [echoHandler]).1.c.Request.Method,
         ((freshWorld (freshContext helloRequest "main.echo")).NextMeasured
            wireEnv [echoHandler]).1.c.HandlerName] :=
  ⟨by decide,
   (counter_entry_key wireEnv [echoHandler]
      (freshWorld (freshContext helloRequest "main.echo"))
      (freshContext pingRequest "main.ping") "gin" (by decide)).1⟩

/-- C10: for every request the interceptor runs the rest of the handler chain exactly
once. When the request is excluded, every handler is applied once, in chain order, no
instrument is touched, and the only call logged is `c.Next()`. When it is not excluded,
the interceptor passes through the states `s1` to `s4`: `s1` is reached when `c.Next()`
has returned (every handler applied once, in chain order, around the point where the
measurement goroutine runs; instruments as they were), then the duration is observed
(`s2`), the counter entry for the status, method and handler of `s1` is incremented
(`s3`), the request size is observed (`s4`), and the response size of `s1` is observed,
none of these four steps changing the context again. -/
theorem handlerFunc_next_once_then_records (env : Env) (next : HandlersChain) (w : World) :
    (w.c.Request.URL.String = w.p.MetricsPath →
      handlerFunc env next w =
        { p := w.p
          c := next.foldl (fun acc h => h acc) w.c
          log := w.log ++ [Event.next] }) ∧
    (w.c.Request.URL.String ≠ w.p.MetricsPath →
      ∃ s1 s2 s3 s4 : World,
        s1 = { p := w.p
               c := (next.drop env.sched).foldl (fun acc h => h acc)
                 { (next.take env.sched).foldl (fun acc h => h acc) w.c with
                   Request := (env.reqWrite
                     ((next.take env.sched).foldl (fun acc h => h acc) w.c).Request).request }
               log := w.log ++ [Event.next] } ∧
        s2 = { p := { s1.p with reqDur := { samples := s1.p.reqDur.samples ++
                        [fdiv (float64 env.since) (float64 Microsecond)] } }
               c := s1.c
               log := s1.log ++ [Event.observe Metric.reqDur
                        (fdiv (float64 env.since) (float64 Microsecond))] } ∧
        s3 = { p := { s2.p with reqCnt :=
                        { labelNames := s2.p.reqCnt.labelNames
                          entries := incEntry s2.p.reqCnt.entries
                            [Itoa s1.c.Writer.Status, s1.c.Request.Method, s1.c.HandlerName] } }
               c := s1.c
               log := s2.log ++ [Event.inc
                        [Itoa s1.c.Writer.Status, s1.c.Request.Method, s1.c.HandlerName]] } ∧
        s4 = { p := { s3.p with reqSz := { samples := s3.p.reqSz.samples ++
                        [float64 ((env.reqWrite ((next.take env.sched).foldl
                            (fun acc h => h acc) w.c).Request).chunks.foldl
                          (fun acc q => (acc.Write q).1) ({ size := 0 } : counter)).size] } }
               c := s1.c
               log := s3.log ++ [Event.observe Metric.reqSz
                        (float64 ((env.reqWrite ((next.take env.sched).foldl
                            (fun acc h => h acc) w.c).Request).chunks.foldl
                          (fun acc q => (acc.Write q).1) ({ size := 0 } : counter)).size)] } ∧
        handlerFunc env next w =
          { p := { s4.p with resSz := { samples := s4.p.resSz.samples ++
                        [float64 s1.c.Writer.Size] } }
            c := s1.c
            log := s4.log ++ [Event.observe Metric.resSz (float64 s1.c.Writer.Size)] }) ∧
    ((handlerFunc env next w).log.drop w.log.length).count Event.next = 1 := by
  refine ⟨?_, ?_, ?_⟩
  · intro h
    rw [handlerFunc_excluded env next w h]
    rfl
  · intro h
    refine ⟨_, _, _, _, rfl, rfl, rfl, rfl, ?_⟩
    rw [handlerFunc_measured env next w h]
    rfl
  · by_cases h : w.c.Request.URL.String = w.p.MetricsPath
    · rw [(handlerFunc_excluded_records_nothing env next w h).2.2]
      simp
    · rw [handlerFunc_measured_log env next w h]
      simp

/-- Witness for C10: `GET /metrics` (excluded) leaves the instruments as they are, and
`GET /hello` (not excluded) ends with the five calls in the log. -/
theorem handlerFunc_next_once_then_records_witness :
    (freshWorld (freshContext metricsRequest "prometheusHandler")).c.Request.URL.String =
      (freshWorld (freshContext metricsRequest "prometheusHandler")).p.MetricsPath ∧
    (handlerFunc wireEnv [sizedHandler 512]
      (freshWorld (freshContext metricsRequest "prometheusHandler"))).p =
      (freshWorld (freshContext metricsRequest "prometheusHandler")).p ∧
    (freshWorld (freshContext helloRequest "main.echo")).c.Request.URL.String ≠
      (freshWorld (freshContext helloRequest "main.echo")).p.MetricsPath ∧
    (handlerFunc wireEnv [echoHandler]
      (freshWorld (freshContext helloRequest "main.echo"))).log.length = 5 :=
  ⟨by decide,
   by
     rw [(handlerFunc_next_once_then_records wireEnv [sizedHandler 512]
        (freshWorld (freshContext metricsRequest "prometheusHandler"))).1 (by decide)],
   by decide,
   by
     obtain ⟨s1, s2, s3, s4, h1, h2, h3, h4, h5⟩ :=
       (handlerFunc_next_once_then_records wireEnv [echoHandler]
         (freshWorld (freshContext helloRequest "main.echo"))).2.1 (by decide)
     rw [h5, h4, h3, h2, h1]
     rfl⟩
theorem hugeBody_length : hugeBody.length = 2 ^ 53 + 1 :=
  List.length_replicate _ _

theorem kilobyte_length : kilobyte.length = 1024 :=
  List.length_replicate _ _

theorem Action.step_Writer (a : Action) (c : Context) :
    (a.step c).Writer = a.onWriter c.Writer := by
  cases a <;> rfl

theorem runSteps_actions_Writer (acts : List Action) :
    ∀ c : Context, (runSteps (acts.map Action.step) c).Writer =
      acts.foldl (fun v a => a.onWriter v) c.Writer := by
  induction acts with
  | nil => intro c; rfl
  | cons a as ih =>
    intro c
    show (runSteps (as.map Action.step) (a.step c)).Writer = _
    rw [ih, Action.step_Writer]
    rfl

theorem NextMeasured_actions_Writer (env : Env) (acts : List Action) (w : World) :
    (w.NextMeasured env (acts.map Action.step)).1.c.Writer =
      acts.foldl (fun v a => a.onWriter v) w.c.Writer := by
  rw [NextMeasured_c, ← List.map_drop, ← List.map_take, runSteps_actions_Writer]
  show (acts.drop env.sched).foldl (fun v a => a.onWriter v)
    (runSteps ((acts.take env.sched).map Action.step) w.c).Writer = _
  rw [runSteps_actions_Writer, ← List.foldl_append, List.take_append_drop]

theorem WriteHeaderNow_of_started (v : ResponseWriter) (h : 0 ≤ v.Size) :
    v.WriteHeaderNow = v := by
  have hw : v.Written = true := by
    unfold ResponseWriter.Written noWritten
    exact decide_eq_true (by omega)
  unfold ResponseWriter.WriteHeaderNow
  rw [if_pos hw]

theorem WriteHeaderNow_of_fresh (v : ResponseWriter) (h : v.Size = noWritten) :
    v.WriteHeaderNow = { v with Size := 0 } := by
  have hw : ¬ v.Written = true := by
    unfold ResponseWriter.Written
    simp [h]
  unfold ResponseWriter.WriteHeaderNow
  rw [if_neg hw]

theorem WriteHeader_Size (v : ResponseWriter) (code : Int) :
    (v.WriteHeader code).Size = v.Size := by
  unfold ResponseWriter.WriteHeader
  split <;> rfl

theorem size_after_started (acts : List Action) :
    ∀ v : ResponseWriter, 0 ≤ v.Size → v.Size + (bytesWritten acts : Int) ≤ maxInt →
      (acts.foldl (fun u a => a.onWriter u) v).Size = v.Size + (bytesWritten acts : Int) := by
  induction acts with
  | nil => intro v _ _; simp [bytesWritten]
  | cons a as ih =>
    intro v h0 hfit
    rw [List.foldl_cons]
    cases a with
    | write sent =>
      have hb : bytesWritten (Action.write sent :: as) = sent.length + bytesWritten as := rfl
      rw [hb] at hfit ⊢
      push_cast at hfit ⊢
      have hs : (Action.onWriter (Action.write sent) v).Size = v.Size + (sent.length : Int) := by
        show (v.Write sent).Size = _
        unfold ResponseWriter.Write
        rw [WriteHeaderNow_of_started v h0]
        show wrapInt (v.Size + (sent.length : Int)) = _
        apply wrapInt_of_range
        · unfold minInt; omega
        · omega
      rw [ih _ (by rw [hs]; omega) (by rw [hs]; omega), hs]
      ring
    | writeHeader code =>
      have hb : bytesWritten (Action.writeHeader code :: as) = bytesWritten as := rfl
      rw [hb] at hfit ⊢
      have hs : (Action.onWriter (Action.writeHeader code) v).Size = v.Size :=
        WriteHeader_Size v code
      rw [ih _ (by rw [hs]; exact h0) (by rw [hs]; exact hfit), hs]
    | writeHeaderNow =>
      have hb : bytesWritten (Action.writeHeaderNow :: as) = bytesWritten as := rfl
      rw [hb] at hfit ⊢
      have hs : Action.onWriter Action.writeHeaderNow v = v := WriteHeaderNow_of_started v h0
      rw [hs, ih v h0 hfit]
    | onRequest f =>
      have hb : bytesWritten (Action.onRequest f :: as) = bytesWritten as := rfl
      rw [hb] at hfit ⊢
      exact ih v h0 hfit

theorem size_after_fresh (acts : List Action) :
    ∀ v : ResponseWriter, v.Size = noWritten → (bytesWritten acts : Int) ≤ maxInt →
      (acts.foldl (fun u a => a.onWriter u) v).Size =
        if startsResponse acts = true then (bytesWritten acts : Int) else noWritten := by
  induction acts with
  | nil => intro v hv _; simpa [startsResponse] using hv
  | cons a as ih =>
    intro v hv hfit
    rw [List.foldl_cons]
    cases a with
    | write sent =>
      have hb : bytesWritten (Action.write sent :: as) = sent.length + bytesWritten as := rfl
      have hst : startsResponse (Action.write sent :: as) = true := rfl
      rw [hb] at hfit ⊢
      rw [hst, if_pos rfl]
      push_cast at hfit ⊢
      have hs : (Action.onWriter (Action.write sent) v).Size = (sent.length : Int) := by
        show (v.Write sent).Size = _
        unfold ResponseWriter.Write
        rw [WriteHeaderNow_of_fresh v hv]
        show wrapInt (0 + (sent.length : Int)) = _
        rw [zero_add]
        apply wrapInt_of_range
        · unfold minInt; omega
        · omega
      rw [size_after_started as _ (by rw [hs]; omega) (by rw [hs]; omega), hs]
    | writeHeader code =>
      have hb : bytesWritten (Action.writeHeader code :: as) = bytesWritten as := rfl
      have hst : startsResponse (Action.writeHeader code :: as) = startsResponse as := rfl
      rw [hb] at hfit ⊢
      rw [hst]
      exact ih _ ((WriteHeader_Size v code).trans hv) hfit
    | writeHeaderNow =>
      have hb : bytesWritten (Action.writeHeaderNow :: as) = bytesWritten as := rfl
      have hst : startsResponse (Action.writeHeaderNow :: as) = true := rfl
      rw [hb] at hfit ⊢
      rw [hst, if_pos rfl]
      have hs : Action.onWriter Action.writeHeaderNow v = { v with Size := 0 } :=
        WriteHeaderNow_of_fresh v hv
      rw [hs, size_after_started as _ (le_refl _) (by simpa using hfit)]
      simp
    | onRequest f =>
      have hb : bytesWritten (Action.onRequest f :: as) = bytesWritten as := rfl
      have hst : startsResponse (Action.onRequest f :: as) = startsResponse as := rfl
      rw [hb] at hfit ⊢
      rw [hst]
      exact ih v hv hfit

theorem response_size_of_actions (env : Env) (w : World) (acts : List Action)
    (hne : w.c.Request.URL.String ≠ w.p.MetricsPath)
    (hfresh : w.c.Writer.Size = noWritten)
    (hfit : (bytesWritten acts : Int) ≤ maxInt) :
    (handlerFunc env (acts.map Action.step) w).p.resSz.samples = w.p.resSz.samples ++
      [float64 (if startsResponse acts = true then (bytesWritten acts : Int) else noWritten)] := by
  rw [handlerFunc_measured_p env _ w hne, handlerFunc_measured_c env _ w hne,
    NextMeasured_actions_Writer, size_after_fresh acts _ hfresh hfit]
  rfl
theorem bytesWritten_cons_write (sent : List Byte) (as : List Action) :
    bytesWritten (Action.write sent :: as) = sent.length + bytesWritten as := rfl

theorem bytesWritten_cons_writeHeader (code : Int) (as : List Action) :
    bytesWritten (Action.writeHeader code :: as) = bytesWritten as := rfl

theorem bytesWritten_nil : bytesWritten [] = 0 := rfl

theorem bytesWritten_kilobyte :
    bytesWritten [Action.writeHeader 200, Action.write kilobyte] = 1024 := by
  rw [bytesWritten_cons_writeHeader, bytesWritten_cons_write, kilobyte_length, bytesWritten_nil]

theorem bytesWritten_hugeBody : bytesWritten [Action.write hugeBody] = 2 ^ 53 + 1 := by
  rw [bytesWritten_cons_write, hugeBody_length, bytesWritten_nil]

/-- C9 as amended: for a request that is not excluded, a response writer on which
nothing was written before the interceptor, and every `B` from 0 to `2^53`: if the
handler chain writes exactly `B` bytes to the response body and has started the response
when `c.Next()` returns (by a `Write` or a header flush), the sample observed into
`response_size_bytes` is exactly `B`. -/
theorem response_size_sample (env : Env) (w : World) (acts : List Action) (B : Nat)
    (hne : w.c.Request.URL.String ≠ w.p.MetricsPath)
    (hfresh : w.c.Writer.Size = noWritten)
    (hstart : startsResponse acts = true)
    (hbytes : bytesWritten acts = B)
    (hB : B ≤ 2 ^ 53) :
    (handlerFunc env (acts.map Action.step) w).p.resSz.samples =
      w.p.resSz.samples ++ [(B : Rat)] := by
  have hfit : (bytesWritten acts : Int) ≤ maxInt := by
    have : ((bytesWritten acts : Nat) : Int) ≤ 2 ^ 53 := by
      rw [hbytes]
      exact_mod_cast hB
    unfold maxInt
    omega
  rw [response_size_of_actions env w acts hne hfresh hfit, if_pos hstart, hbytes,
    float64_natCast B hB]

/-- Witness for C9 as amended: a handler that sets status 200 and writes 1024 bytes gives
the sample 1024. -/
theorem response_size_sample_witness :
    (freshWorld (freshContext pingRequest "main.ping")).c.Request.URL.String ≠
      (freshWorld (freshContext pingRequest "main.ping")).p.MetricsPath ∧
    (freshWorld (freshContext pingRequest "main.ping")).c.Writer.Size = noWritten ∧
    startsResponse [Action.writeHeader 200, Action.write kilobyte] = true ∧
    bytesWritten [Action.writeHeader 200, Action.write kilobyte] = 1024 ∧
    (handlerFunc wireEnv ([Action.writeHeader 200, Action.write kilobyte].map Action.step)
      (freshWorld (freshContext pingRequest "main.ping"))).p.resSz.samples =
      (freshWorld (freshContext pingRequest "main.ping")).p.resSz.samples ++
        [((1024 : Nat) : Rat)] :=
  ⟨by decide, rfl, rfl, bytesWritten_kilobyte,
   response_size_sample wireEnv (freshWorld (freshContext pingRequest "main.ping"))
     [Action.writeHeader 200, Action.write kilobyte] 1024 (by decide) rfl rfl
     bytesWritten_kilobyte (by norm_num)⟩

/-- C9 as stated fails in three ways. A handler that writes `2^53 + 1` bytes gets the
sample `2^53`: the conversion to float64 on line 91 rounds. A handler that sets the
status 204 and writes no byte (`B = 0`) gets the sample `-1`: the response is not
started when `c.Next()` returns, and `Size()` then reports `-1`. And when five bytes
were written before the interceptor is entered, a chain that writes three bytes gets the
sample `8`: `Size()` counts the whole response. -/
theorem response_size_sample_fails :
    bytesWritten [Action.write hugeBody] = 2 ^ 53 + 1 ∧
    (handlerFunc wireEnv ([Action.write hugeBody].map Action.step)
      (freshWorld (freshContext pingRequest "main.ping"))).p.resSz.samples = [2 ^ 53] ∧
    ([2 ^ 53] : List Rat) ≠ [((2 ^ 53 + 1 : Nat) : Rat)] ∧
    bytesWritten [Action.writeHeader 204] = 0 ∧
    (handlerFunc wireEnv ([Action.writeHeader 204].map Action.step)
      (freshWorld (freshContext pingRequest "main.ping"))).p.resSz.samples = [-1] ∧
    ([-1] : List Rat) ≠ [((0 : Nat) : Rat)] ∧
    bytesWritten [Action.write [7, 8, 9]] = 3 ∧
    (handlerFunc wireEnv ([Action.write [7, 8, 9]].map Action.step)
      (freshWorld startedContext)).p.resSz.samples = [8] ∧
    ([8] : List Rat) ≠ [((3 : Nat) : Rat)] := by
  have hb := bytesWritten_hugeBody
  have hs : startsResponse [Action.write hugeBody] = true := rfl
  have hn : ¬ startsResponse [Action.writeHeader 204] = true := by decide
  have hf : float64 (((2 ^ 53 + 1 : Nat) : Int)) = 2 ^ 53 := by
    norm_num [float64, excessBits, roundHalfEven]
  have hm : float64 noWritten = -1 := by
    norm_num [float64, excessBits, roundHalfEven, noWritten]
  have h8 : ((freshWorld startedContext).NextMeasured wireEnv
      ([Action.write [7, 8, 9]].map Action.step)).1.c.Writer.Size = 8 := by decide
  refine ⟨hb, ?_, by norm_num, rfl, ?_, by norm_num, rfl, ?_, by norm_num⟩
  · rw [response_size_of_actions wireEnv _ _ (by decide) rfl
        (by rw [hb]; unfold maxInt; norm_num),
      if_pos hs, hb, hf]
    rfl
  · rw [response_size_of_actions wireEnv _ _ (by decide) rfl (by decide), if_neg hn, hm]
    rfl
  · rw [handlerFunc_measured_p _ _ _ (by decide), handlerFunc_measured_c _ _ _ (by decide),
      h8, float64_exact 8 (by decide)]
    simp [Summary.Observe, freshWorld, NewPrometheus, Prometheus.registerMetrics]

end GinPrometheus
